import Mathlib

/-!
# Verification of PasteMD's content-classification and conversion pipeline

Shallow embedding of the PasteMD repository (clipboard → routing → conversion →
insertion) and proofs about it.  Python strings are modelled as `List Char`;
Python functions are translated definition-by-definition from the source files:

* `src/pastemd/utils/md_normalizer.py`   → `normalize_markdown` and helpers
* `src/pastemd/utils/clipboard.py`       → `extractHtmlFragment` and helpers
* `src/pastemd/utils/html_analyzer.py`   → `is_plain_html_fragment` and helpers
* `src/pastemd/app/workflows/paste_workflow.py` → `PasteWorkflow.execute`
  modelled as a writer/exception interpreter over explicit collaborator
  behaviours.
-/

namespace PasteMD

/-! ## Python string primitives over `List Char`

Python `str.strip()` / `\s` whitespace is modelled by the six ASCII whitespace
characters (space, tab, newline, carriage return, vertical tab, form feed);
the repository's inputs are clipboard text where these are the ones that occur.
-/

/-- The characters Python's `str.strip()` removes (ASCII subset). -/
def isPySpace (c : Char) : Bool :=
  c = ' ' || c = '\t' || c = '\n' || c = '\r' || c = '\x0b' || c = '\x0c'

/-- Python `str.lstrip()`. -/
def pyLStrip : List Char → List Char
  | [] => []
  | c :: cs => if isPySpace c then pyLStrip cs else c :: cs

/-- Python `str.strip()`: remove leading and trailing whitespace. -/
def pyStrip (s : List Char) : List Char :=
  (pyLStrip (pyLStrip s).reverse).reverse

/-- Truthiness of `line.strip()`: `blank l` iff the stripped line is empty. -/
def blank (l : List Char) : Bool := pyStrip l = []

/-- Models `0-9` (Python `str.isdigit` restricted to ASCII, the case relevant to
CF_HTML offset metadata). -/
def isAsciiDigit (c : Char) : Bool := '0' ≤ c && c ≤ '9'

/-- Python `s.isdigit()`: nonempty and all digits. -/
def pyIsDigitStr (s : List Char) : Bool := s ≠ [] && s.all isAsciiDigit

/-- Numeric value of an all-digit string (the value `int(s)` returns when
`s.isdigit()` holds). -/
def digitsToNat (s : List Char) : Nat :=
  s.foldl (fun acc c => acc * 10 + (c.toNat - '0'.toNat)) 0

/-! ## `src/pastemd/utils/md_normalizer.py` -/

/-- The line categories of `_get_line_type` plus the sentinel `'start'`
used for `prev_line_type` before the first line. -/
inductive LType where
  | start | empty | code | heading | table | hr | list | quote | text
deriving DecidableEq, Repr

/-- The backquote character. -/
def backquote : Char := Char.ofNat 96

/-- Models `line.startswith('```')`. -/
def isFence (l : List Char) : Bool :=
  [backquote, backquote, backquote].isPrefixOf l

/-- Models `re.match(r'^#{1,6}\s+', line)`: one to six leading `#` followed by a
whitespace character. -/
def headingMatch (l : List Char) : Bool :=
  let k := (l.takeWhile (· = '#')).length
  1 ≤ k && k ≤ 6 &&
    (match l.drop k with
     | c :: _ => isPySpace c
     | [] => false)

/-- Models `line.startswith('|') and line.endswith('|')` (on the raw line). -/
def isTableLine (l : List Char) : Bool :=
  match l with
  | [] => false
  | c :: _ => c = '|' && l.getLast? = some '|'

/-- Models `re.match(r'^[-*_]{3,}$', stripped)`: at least three characters, all of
them `-`, `*` or `_`. -/
def hrMatch (s : List Char) : Bool :=
  3 ≤ s.length && s.all (fun c => c = '-' || c = '*' || c = '_')

/-- Models `re.match(r'^[-*+]\s', line)`. -/
def ulMatch (l : List Char) : Bool :=
  match l with
  | a :: b :: _ => (a = '-' || a = '*' || a = '+') && isPySpace b
  | _ => false

/-- Models `re.match(r'^\d+\.\s', line)`: one or more digits, a dot, a whitespace. -/
def olMatch (l : List Char) : Bool :=
  let ds := l.takeWhile isAsciiDigit
  ds ≠ [] &&
    (match l.drop ds.length with
     | '.' :: c :: _ => isPySpace c
     | _ => false)

/-- Models `_get_line_type(line, in_code_block, in_table)` (the `in_table`
argument is accepted and ignored, exactly as in the source). -/
def lineType (l : List Char) (inCode : Bool) (_inTable : Bool) : LType :=
  if blank l then .empty
  else if inCode then .code
  else if isFence l then .code
  else if headingMatch l then .heading
  else if isTableLine l then .table
  else if hrMatch (pyStrip l) then .hr
  else if ulMatch l then .list
  else if olMatch l then .list
  else if ['>'].isPrefixOf l then .quote
  else .text

/-- Models `_should_add_blank_line(prev_type, current_type)`. -/
def needBlankBefore (pt ct : LType) : Bool :=
  if pt = .start || pt = .empty then false
  else if ct = .empty then false
  else if ct = .heading then pt ≠ .heading
  else if ct = .code then pt ≠ .code
  else if ct = .table then pt ≠ .table
  else if ct = .list then pt ≠ .list
  else if ct = .quote then pt ≠ .quote
  else if ct = .hr then true
  else false

/-- The unconditional part of `_should_add_blank_after(current_type, index,
lines)`: `ic` is the in-code-block state before the current line, which equals
the fence parity the source recomputes over `lines[:index]`.  The guard that
the next line exists and is non-blank is applied at the call site. -/
def needBlankAfter (ct : LType) (l : List Char) (ic : Bool) : Bool :=
  if ct = .heading then true
  else if ct = .code && isFence l && !ic then true
  else if ct = .hr then true
  else false

/-- The line loop of `normalize_markdown`: state is `(in_code_block,
in_table, prev_line_type, lastNB)` where `lastNB` holds iff `result` is
nonempty and its last element is non-blank (the guard
`result and result[-1].strip()`).  Inserted blank lines are `[]` (`''`). -/
def processGo (ic it : Bool) (pt : LType) (lastNB : Bool) :
    List (List Char) → List (List Char)
  | [] => []
  | l :: rest =>
    let t := lineType l ic it
    let ic' := if isFence l then !ic else ic
    let it' := if t = .table then true
               else if it && !(t = .empty) then false
               else it
    let ins1 := needBlankBefore pt t && lastNB
    let nextNB := match rest with
                  | [] => false
                  | r :: _ => !(blank r)
    let ins2 := needBlankAfter t l ic && nextNB
    (if ins1 then [[]] else []) ++
      l :: ((if ins2 then [[]] else []) ++
        processGo ic' it' t (!ins2 && !(blank l)) rest)

/-- Python `text.split('\n')` (never returns an empty list). -/
def splitNL : List Char → List (List Char)
  | [] => [[]]
  | c :: cs =>
    let r := splitNL cs
    if c = '\n' then [] :: r
    else
      match r with
      | [] => [[c]]
      | l :: ls => (c :: l) :: ls

/-- Python `'\n'.join(lines)`. -/
def joinNL : List (List Char) → List Char
  | [] => []
  | [l] => l
  | l :: ls => l ++ '\n' :: joinNL ls

/-- Models `re.sub(r'\n{3,}', '\n\n', text)`, as a scan that caps every run of
consecutive newlines at two; `k` is the length of the newline run just
emitted. -/
def collapseGo (k : Nat) : List Char → List Char
  | [] => []
  | c :: cs =>
    if c = '\n' then
      if 2 ≤ k then collapseGo k cs
      else '\n' :: collapseGo (k + 1) cs
    else c :: collapseGo 0 cs

/-- Models `re.sub(r'\n{3,}', '\n\n', text)`. -/
def pyCollapseNL (s : List Char) : List Char := collapseGo 0 s

/-- Python `s.replace('\r\n', '\n')` (left-to-right, non-overlapping). -/
def replaceCRLF : List Char → List Char
  | [] => []
  | [c] => [c]
  | c :: d :: cs =>
    if c = '\r' && d = '\n' then '\n' :: replaceCRLF cs
    else c :: replaceCRLF (d :: cs)

/-- Models `md_text.replace('\r\n', '\n').replace('\r', '\n')`. -/
def normEOL (s : List Char) : List Char :=
  (replaceCRLF s).map fun c => if c = '\r' then '\n' else c

/-- Python `'\r\n' in md_text`. -/
def hasCRLF : List Char → Bool
  | [] => false
  | [_] => false
  | c :: d :: cs => (c = '\r' && d = '\n') || hasCRLF (d :: cs)

/-- Python `text.replace('\n', '\r\n')` on a `'\r'`-free string. -/
def expandCRLF : List Char → List Char
  | [] => []
  | c :: cs => (if c = '\n' then ['\r', '\n'] else [c]) ++ expandCRLF cs

/-- The line-level effect of `pyCollapseNL` on a joined line list: runs of
newline characters correspond to runs of empty lines, and capping a run at
two newlines merges the empty lines beyond the first; `k` plays the same
role as in `collapseGo`. -/
def mergeGo : Nat → List (List Char) → List (List Char)
  | _, [] => []
  | _, [l] => [l]
  | k, l :: rest =>
    let k1 := if l = [] then k else 0
    if 2 ≤ k1 then mergeGo k1 rest
    else l :: mergeGo (k1 + 1) rest

/-- The in-code-block toggle one line causes. -/
def tog (l : List Char) (ic : Bool) : Bool := if isFence l then !ic else ic

/-- Models `Good ic P`: traversing `P` from in-code state `ic` triggers no
blank-line insertion — every line where the after-rule fires is followed by
a blank line, and no two adjacent non-blank lines trigger the before-rule.
This is the invariant `normalize_markdown` establishes and `processGo`
preserves as the identity. -/
def Good : Bool → List (List Char) → Prop
  | _, [] => True
  | _, [_] => True
  | ic, l :: r :: rest =>
    (blank r = false → needBlankAfter (lineType l ic false) l ic = false) ∧
    (blank l = false → blank r = false →
      needBlankBefore (lineType l ic false) (lineType r (tog l ic) false)
        = false) ∧
    Good (tog l ic) (r :: rest)

/-- Models `normalize_markdown(md_text)` from `src/pastemd/utils/md_normalizer.py`:
normalize line endings, run the blank-line insertion loop, collapse runs of
three or more newlines, and restore `\r\n` endings when the input had any. -/
def normalize_markdown (s : List Char) : List Char :=
  let text := normEOL s
  let lines := splitNL text
  let result := processGo false false .start false lines
  let text2 := pyCollapseNL (joinNL result)
  if hasCRLF s then expandCRLF text2 else text2

/-! ## `src/pastemd/utils/clipboard.py`: CF_HTML fragment extraction

`_extract_html_fragment` parses the colon-separated metadata header of a
CF_HTML payload and extracts the fragment by three strategies in priority
order.  Python exceptions are modelled with `Except PyExc`.
-/

/-- The exception classes the workflow distinguishes (`src/pastemd/core/
errors.py` plus built-ins): `ClipboardError`, `PandocError`, `InsertError`,
`ValueError` (raised by `int()`), and a catch-all for anything else.  All are
subclasses of Python `Exception`. -/
inductive PyExc where
  | clipboardError | pandocError | insertError | valueError | otherError
deriving DecidableEq, Repr

/-- Python `str.splitlines()` restricted to the `\n`, `\r`, `\r\n` boundaries
(the ones occurring in CF_HTML payloads); `acc` is the current line reversed. -/
def splitlinesGo (acc : List Char) : List Char → List (List Char)
  | [] => if acc.isEmpty then [] else [acc.reverse]
  | '\r' :: '\n' :: cs => acc.reverse :: splitlinesGo [] cs
  | '\n' :: cs => acc.reverse :: splitlinesGo [] cs
  | '\r' :: cs => acc.reverse :: splitlinesGo [] cs
  | c :: cs => splitlinesGo (c :: acc) cs

/-- Python `s.splitlines()`. -/
def pySplitlines (s : List Char) : List (List Char) := splitlinesGo [] s

/-- Python `line.split(":", 1)` when `":" in line`: the part before the first
colon and the part after it; `none` when the line has no colon. -/
def splitOnceColon : List Char → Option (List Char × List Char)
  | [] => none
  | ':' :: cs => some ([], cs)
  | c :: cs =>
    match splitOnceColon cs with
    | some (k, v) => some (c :: k, v)
    | none => none

/-- The metadata-header loop of `_extract_html_fragment`: walk the payload's
lines, stop at the first line whose stripped form starts with `<!--`, and
collect `key.strip() : value.strip()` pairs from every line containing a
colon. -/
def metaPairsGo : List (List Char) → List (List Char × List Char)
  | [] => []
  | line :: rest =>
    if ['<', '!', '-', '-'].isPrefixOf (pyStrip line) then []
    else
      match splitOnceColon line with
      | some (k, v) => (pyStrip k, pyStrip v) :: metaPairsGo rest
      | none => metaPairsGo rest

/-- Models `meta` as built by `_extract_html_fragment`. -/
def metaOf (cf : List Char) : List (List Char × List Char) :=
  metaPairsGo (pySplitlines cf)

/-- Models `meta.get(k)` for the dict built by repeated assignment: the **last**
binding of a key wins. -/
def metaGet (ps : List (List Char × List Char)) (k : List Char) :
    Option (List Char) :=
  match ps with
  | [] => none
  | (k0, v0) :: rest =>
    match metaGet rest k with
    | some v => some v
    | none => if k0 = k then some v0 else none

/-- Python `s[a:b]` for nonnegative indices (out-of-range indices clamp). -/
def pySliceNat (s : List Char) (a b : Nat) : List Char :=
  (s.take b).drop a

/-- Python `s[a:b]` for arbitrary `int` indices: negative indices count from
the end, out-of-range indices clamp. -/
def pySliceInt (s : List Char) (a b : Int) : List Char :=
  let n : Int := s.length
  let a2 := (if a < 0 then max 0 (n + a) else min a n).toNat
  let b2 := (if b < 0 then max 0 (n + b) else min b n).toNat
  (s.take b2).drop a2

/-- Python `int(s)` for a `str`: strip whitespace, allow one sign, then
require at least one digit (`none` models the `ValueError` raise; digit
grouping underscores are not modelled — they do not occur in CF_HTML
metadata). -/
def pyInt (s : List Char) : Option Int :=
  match pyStrip s with
  | '-' :: ds => if pyIsDigitStr ds then some (-(digitsToNat ds : Int)) else none
  | '+' :: ds => if pyIsDigitStr ds then some ((digitsToNat ds : Int)) else none
  | ds => if pyIsDigitStr ds then some ((digitsToNat ds : Int)) else none

/-- Index of the first occurrence of `pat` in `s`. -/
def findFirst (pat s : List Char) : Option Nat :=
  if pat.isPrefixOf s then some 0
  else
    match s with
    | [] => none
    | _ :: cs => (findFirst pat cs).map (· + 1)

/-- Index of the last occurrence of `pat` in `s`. -/
def findLast (pat s : List Char) : Option Nat :=
  match s with
  | [] => if pat.isEmpty then some 0 else none
  | _ :: cs =>
    match findLast pat cs with
    | some i => some (i + 1)
    | none => if pat.isPrefixOf s then some 0 else none

/-- Models `"<!--StartFragment-->"` (20 characters). -/
def startAnchor : List Char := "<!--StartFragment-->".data

/-- Models `"<!--EndFragment-->"`. -/
def endAnchor : List Char := "<!--EndFragment-->".data

/-- Models `re.search(r"<!--StartFragment-->(.*)<!--EndFragment-->", cf, re.S)`:
with a leftmost match and a greedy DOTALL `.*`, the group spans from the end
of the first `StartFragment` anchor to the start of the last `EndFragment`
anchor, provided the latter lies at or after the former. -/
def anchorSpan (cf : List Char) : Option (Nat × Nat) :=
  match findFirst startAnchor cf, findLast endAnchor cf with
  | some i, some j =>
    if i + startAnchor.length ≤ j then some (i + startAnchor.length, j)
    else none
  | _, _ => none

/-- The strategy-1 guard `sf and ef and sf.isdigit() and ef.isdigit()`
(an empty value is falsy and also fails `isdigit`). -/
def offsetStrategy (cf : List Char) : Option (Nat × Nat) :=
  match metaGet (metaOf cf) "StartFragment".data,
        metaGet (metaOf cf) "EndFragment".data with
  | some sf, some ef =>
    if pyIsDigitStr sf && pyIsDigitStr ef then
      some (digitsToNat sf, digitsToNat ef)
    else none
  | _, _ => none

/-- Models `_extract_html_fragment(cf_html)`.  Strategy 1: slice at the
`StartFragment`/`EndFragment` offsets.  Strategy 2: the text between the
literal comment anchors.  Strategy 3: slice at `StartHTML`/`EndHTML`
(defaulting to `0` and `len(cf_html)`; `int(str(len(cf_html)))` is
`len(cf_html)`).  The `int()` calls of strategy 3 sit **outside** the
`try`, so a present but non-numeric `StartHTML`/`EndHTML` value raises
`ValueError`; the `try/except` around the final slice is unreachable
because slicing never raises. -/
def extract_html_fragment (cf : List Char) : Except PyExc (List Char) :=
  match offsetStrategy cf with
  | some (a, b) => .ok (pySliceNat cf a b)
  | none =>
    match anchorSpan cf with
    | some (i, j) => .ok (pySliceNat cf i j)
    | none =>
      match pyInt ((metaGet (metaOf cf) "StartHTML".data).getD ['0']) with
      | none => .error .valueError
      | some a =>
        match metaGet (metaOf cf) "EndHTML".data with
        | none => .ok (pySliceInt cf a cf.length)
        | some ev =>
          match pyInt ev with
          | none => .error .valueError
          | some b => .ok (pySliceInt cf a b)

/-- Models `get_clipboard_html`'s extraction-plus-sanitization stage:
`_clean_html_content(_extract_html_fragment(cf))`.  The sanitizer is a
collaborator here (its BeautifulSoup tree surgery is outside this core), so
it is abstracted as an arbitrary total function; any exception raised by
`_extract_html_fragment` escapes the stage before the sanitizer runs. -/
def extractAndClean (cleanFn : List Char → List Char) (cf : List Char) :
    Except PyExc (List Char) :=
  (extract_html_fragment cf).map cleanFn

/-! ## `src/pastemd/utils/html_analyzer.py`

The analyzer inspects the BeautifulSoup parse of the fragment.  The spec
assumes a conformant HTML parse tree, so the tree is passed explicitly:
`tree` stands for the children of the `body` of the lxml-parsed document
(`soup.body or soup`), with tag names already lowercased as lxml produces
them. -/

/-- A parsed HTML node: an element with children, or a text node (names and
text as character lists, names lowercased as lxml produces them). -/
inductive HNode where
  | elem (name : List Char) (children : List HNode)
  | textNode (s : List Char)
deriving Repr

/-- Membership of a character list in a list of character lists. -/
def memL (x : List Char) : List (List Char) → Bool
  | [] => false
  | y :: ys => x = y || memL x ys

/-- Models `SEMANTIC_TAGS` from `html_analyzer.py`. -/
def SEMANTIC_TAGS : List (List Char) :=
  ["p", "h1", "h2", "h3", "h4", "h5", "h6", "ul", "ol", "li", "dl", "dt",
   "dd", "table", "thead", "tbody", "tfoot", "tr", "th", "td", "col",
   "colgroup", "pre", "code", "blockquote", "figure", "figcaption", "math",
   "section", "article", "header", "footer", "aside", "nav", "hr"].map
    String.data

/-- Models `INLINE_WRAPPER_TAGS` from `html_analyzer.py`. -/
def INLINE_WRAPPER_TAGS : List (List Char) :=
  ["span", "font", "strong", "em", "b", "i", "u", "sub", "sup", "s", "del",
   "mark", "a"].map String.data

/-- The document-shell tags `_only_contains_inline_wrappers` skips. -/
def SHELL_TAGS : List (List Char) :=
  ["html", "head", "body", "meta", "style"].map String.data

/-- Models `MARKDOWN_HINTS` from `html_analyzer.py`. -/
def MARKDOWN_HINTS : List (List Char) :=
  ["\n#", "\n##", "\n- ", "\n* ", "\n1.", "```", "**", "__", "~~", "> ",
   "$$", "\\(", "\\)", "|", "\n---", "\n***", "`"].map String.data

mutual
/-- Element names below one node, in document order. -/
def tagsOfNode : HNode → List (List Char)
  | .elem n cs => n :: descendantTags cs
  | .textNode _ => []
/-- All element names in the tree, in document order
(`body.find_all(True)`). -/
def descendantTags : List HNode → List (List Char)
  | [] => []
  | h :: t => tagsOfNode h ++ descendantTags t
end

mutual
/-- Text-node strings below one node, in document order. -/
def textsOfNode : HNode → List (List Char)
  | .elem _ cs => nodeTexts cs
  | .textNode s => [s]
/-- All text-node strings of the tree in document order. -/
def nodeTexts : List HNode → List (List Char)
  | [] => []
  | h :: t => textsOfNode h ++ nodeTexts t
end

/-- Models `_count_semantic_tags(soup)`. -/
def countSemanticTags (tree : List HNode) : Nat :=
  ((descendantTags tree).filter (fun n => memL n SEMANTIC_TAGS)).length

/-- Models `_only_contains_inline_wrappers(soup)`: every element is either a
document-shell tag or an inline wrapper. -/
def onlyInlineWrappers (tree : List HNode) : Bool :=
  (descendantTags tree).all fun n =>
    memL n SHELL_TAGS || memL n INLINE_WRAPPER_TAGS

/-- Models `body.get_text(separator="\n").strip()` (`'\n'.join` is `joinNL`). -/
def visibleText (tree : List HNode) : List Char :=
  pyStrip (joinNL (nodeTexts tree))

/-- Models `_markdown_hint_score(text)`: the number of hint strings occurring in
the text. -/
def markdownHintScore (t : List Char) : Nat :=
  (MARKDOWN_HINTS.filter (fun h => (findFirst h t).isSome)).length

/-- Models `is_plain_html_fragment(html)` from `src/pastemd/utils/html_analyzer.py`
(with the parse of `html` passed explicitly as `tree`). -/
def is_plain_html_fragment (html : List Char) (tree : List HNode) : Bool :=
  if blank html then true
  else if 0 < countSemanticTags tree then false
  else if onlyInlineWrappers tree then true
  else
    let text := visibleText tree
    if text.isEmpty then true
    else 2 ≤ markdownHintScore text

/-- The decision procedure exactly as claim C7 words it (spec §4.3 steps
1–4): the only difference from the source is step 4, which scores the
visible text unconditionally instead of first returning `true` when the
stripped visible text is empty. -/
def c7SpecProcedure (html : List Char) (tree : List HNode) : Bool :=
  if blank html then true
  else if 0 < countSemanticTags tree then false
  else if onlyInlineWrappers tree then true
  else 2 ≤ markdownHintScore (visibleText tree)

/-! ## `src/pastemd/app/workflows/paste_workflow.py`

`PasteWorkflow.execute` orchestrates collaborators (clipboard, detector,
pandoc, inserters, launcher, filesystem, notifier).  The collaborators live
outside this core (spec §6), so a `Behavior` record supplies each call's
result — either a value or a raised exception.  Execution is interpreted in
a writer/exception pair: the list of externally visible events (collaborator
calls and notifications) already performed, together with the outcome. -/

/-- Models `detect_active_app()`'s recognized targets; `noneDetected` stands for
Python `None` (and for any unrecognized identifier, which the routing treats
identically). -/
inductive Target where
  | word | wps | excel | wps_excel | noneDetected
deriving DecidableEq, Repr

/-- A parsed Markdown table: rows of cells (`parse_markdown_table`'s
result). -/
abbrev TableData := List (List String)

/-- The notification sites of `paste_workflow.py`, one tag per
`notification_manager.notify(...)` call site. -/
inductive NotifTag where
  | emptyClipboard        -- "剪贴板为空，未处理。"
  | clipboardReadFail     -- execute's ClipboardError handler
  | pandocFail            -- execute's PandocError handler
  | genericFail           -- execute's catch-all handler
  | excelNoTable          -- excel flow: no valid Markdown table
  | excelInserted         -- excel flow success
  | excelInsertFail       -- excel flow InsertError handler
  | htmlClipFail          -- html flow ClipboardError handler
  | htmlPandocFail        -- html flow PandocError handler
  | htmlGenericFail       -- html flow catch-all handler
  | htmlInserted          -- html flow: inserted
  | htmlNotInserted       -- html flow: app not ready
  | wordSaveFail          -- word flow: saving the DOCX failed
  | wordInserted          -- word flow: inserted
  | wordNotInserted       -- word flow: app not ready
  | noAppDisabled         -- no-app flow with auto-open disabled
  | docOpened             -- document generated and opened
  | docOpenFail           -- document generated, open failed
  | docPandocFail         -- document flow PandocError handler
  | docGenericFail        -- document flow catch-all handler
  | sheetNoTable          -- spreadsheet flow: no valid table
  | sheetOpened           -- spreadsheet generated and opened
  | sheetOpenFail         -- spreadsheet generated, open failed
  | sheetGenericFail      -- spreadsheet flow catch-all handler
deriving DecidableEq, Repr

/-- Externally visible events of one trigger: collaborator calls and user
notifications. -/
inductive Event where
  | readText                            -- get_clipboard_text()
  | checkHtmlFormat                     -- is_clipboard_html()
  | readHtml                            -- get_clipboard_html()
  | detect                              -- detect_active_app()
  | parseTableCall (md : String)        -- parse_markdown_table(md)
  | convertMdBytes (md : String)        -- pandoc.convert_to_docx_bytes
  | convertHtmlBytes (html : String)    -- pandoc.convert_html_to_docx_bytes
  | convertMdFile (md : String)         -- pandoc.convert_to_docx (to a file)
  | insertWord (path : String)          -- word_inserter.insert
  | insertWps (path : String)           -- wps_inserter.insert
  | insertExcel (grid : TableData)      -- ms_excel_inserter.insert
  | insertWpsExcel (grid : TableData)   -- wps_excel_inserter.insert
  | openDocument (path : String)        -- AppLauncher.awaken_and_open_document
  | openSpreadsheet (grid : TableData)  -- AppLauncher.generate_and_open_spreadsheet
  | writeSaved                          -- open(output_path,"wb").write(bytes)
  | notifyUser (ok : Bool) (tag : NotifTag)
deriving DecidableEq, Repr

/-- Writer/exception interpretation of a workflow step: the events performed
so far, and either a value or the exception travelling upward. -/
abbrev Wf (α : Type) : Type := List Event × Except PyExc α

/-- Sequencing of workflow steps: events accumulate; an exception stops the
continuation but keeps the events already performed. -/
def wfBind (m : Wf α) (f : α → Wf β) : Wf β :=
  match m with
  | (evs, .error e) => (evs, .error e)
  | (evs, .ok a) =>
    let r := f a
    (evs ++ r.1, r.2)

instance wfMonad : Monad Wf where
  pure a := ([], .ok a)
  bind := wfBind

/-- Emit one event. -/
def emit (e : Event) : Wf Unit := ([e], .ok ())

/-- Perform a collaborator call: emit its event, then yield its result or
propagate its exception. -/
def call (e : Event) (r : Except PyExc α) : Wf α := ([e], r)

/-- Lift an event-less collaborator result. -/
def liftX (r : Except PyExc α) : Wf α := ([], r)

/-- Python `try/except E: handler`: exceptions matched by `catch` run the
handler; everything else keeps propagating.  Events performed before the
exception stay performed. -/
def pyTry (m : Wf α) (sel : PyExc → Bool) (handler : PyExc → Wf α) : Wf α :=
  match m with
  | (evs, .error e) =>
    if sel e then
      let r := handler e
      (evs ++ r.1, r.2)
    else (evs, .error e)
  | ok => ok

/-- The configuration keys `paste_workflow.py` reads, with each field holding
the value `config.get(key, default)` yields (truthiness for the boolean
flags). -/
structure Config where
  enable_excel : Bool          -- config.get("enable_excel", True)
  keep_file : Bool             -- config.get("keep_file", False)
  auto_open_on_no_app : Bool   -- config.get("auto_open_on_no_app", True)
  excel_keep_format : Bool     -- config.get("excel_keep_format", True)
  save_dir : String            -- config.get("save_dir", "")
deriving Repr

/-- One trigger's collaborator behaviour.  Collaborators whose Python
implementation wraps every failure into a single exception class are given
that class here; the ones outside `src/` may raise anything. -/
structure Behavior where
  /-- Models `pyperclip.paste()` via `get_clipboard_text`: a string, or a raised
  `ClipboardError` (the only class it raises). -/
  clipboard_text : Except Unit String
  /-- Models `is_clipboard_html()` (may raise in degraded environments). -/
  clipboard_has_html : Except PyExc Bool
  /-- Models `get_clipboard_html()`: cleaned HTML, or `ClipboardError` (the only
  class it raises). -/
  clipboard_html : Except Unit String
  /-- Models `detect_active_app()` (win32 collaborator, may raise). -/
  active_app : Except PyExc Target
  /-- Models `parse_markdown_table(md)` (spreadsheet-domain collaborator: a grid,
  or `None`). -/
  parse_table : String → Option TableData
  /-- Models `convert_latex_delimiters(md)` (pure text transform, spec §6). -/
  latex_convert : String → String
  /-- Models `PandocIntegration(pandoc_path)`: raises only `PandocError`. -/
  pandoc_init : Except Unit Unit
  /-- Models `convert_to_docx_bytes(md, reference_docx)` (may raise). -/
  md_to_docx_bytes : String → Except PyExc String
  /-- Models `convert_html_to_docx_bytes(html, reference_docx)` (may raise). -/
  html_to_docx_bytes : String → Except PyExc String
  /-- Models `convert_to_docx(md, output_path, reference_docx)` (may raise). -/
  md_to_docx_file : String → String → Except PyExc Unit
  /-- The `EphemeralFile` path handed to the inserter. -/
  eph_path : String
  /-- Models `EphemeralFile.__enter__` + `write_bytes` (may raise). -/
  eph_write : Except PyExc Unit
  /-- Models `word_inserter.insert(path)` (may raise, e.g. `InsertError`). -/
  word_insert : String → Except PyExc Bool
  /-- Models `wps_inserter.insert(path)`. -/
  wps_insert : String → Except PyExc Bool
  /-- Models `ms_excel_inserter.insert(grid, keep_format)`. -/
  excel_insert : TableData → Bool → Except PyExc Bool
  /-- Models `wps_excel_inserter.insert(grid, keep_format)`. -/
  wps_excel_insert : TableData → Bool → Except PyExc Bool
  /-- Models `generate_output_path(...)` (filesystem collaborator, may raise). -/
  gen_output_path : Except PyExc String
  /-- Models `open(output_path, "wb")` + `f.write(docx_bytes)` (may raise). -/
  write_bytes_file : Except PyExc Unit
  /-- Models `os.path.expandvars`. -/
  expandvars : String → String
  /-- Models `os.makedirs(save_dir, exist_ok=True)` (may raise). -/
  makedirs : Except PyExc Unit
  /-- Models `AppLauncher.awaken_and_open_document(path)` (may raise). -/
  open_document : String → Except PyExc Bool
  /-- Models `AppLauncher.generate_and_open_spreadsheet(grid, path, keep_format)`. -/
  gen_open_spreadsheet : TableData → String → Bool → Except PyExc Bool

/-- Models `get_clipboard_text()`: wraps any failure into `ClipboardError`. -/
def get_clipboard_text (b : Behavior) : Wf String :=
  call .readText (match b.clipboard_text with
                  | .ok t => .ok t
                  | .error _ => .error .clipboardError)

/-- Truthiness of `not text or not text.strip()`. -/
def isBlankStr (s : String) : Bool := blank s.data

/-- Models `is_clipboard_empty()`: empty/whitespace text, or a failed read, count
as empty. -/
def is_clipboard_empty (b : Behavior) : Wf Bool :=
  pyTry (do let t ← get_clipboard_text b
            pure (isBlankStr t))
    (fun e => e = .clipboardError) (fun _ => pure true)

/-- Models `self._ensure_pandoc_integration()`: constructs `PandocIntegration`,
which raises only `PandocError` (the workflow object is modelled per
trigger, so the integration starts uninitialized). -/
def ensurePandoc (b : Behavior) : Wf Unit :=
  liftX (match b.pandoc_init with
         | .ok () => .ok ()
         | .error _ => .error .pandocError)

/-- Models `self._perform_word_insertion(docx_path, target)`: dispatch to the Word
or WPS inserter, converting `InsertError` into `False`; an unknown target
logs and returns `False`. -/
def performWordInsertion (b : Behavior) (path : String) (target : Target) :
    Wf Bool :=
  if target = .word then
    pyTry (call (.insertWord path) (b.word_insert path))
      (fun e => e = .insertError) (fun _ => pure false)
  else if target = .wps then
    pyTry (call (.insertWps path) (b.wps_insert path))
      (fun e => e = .insertError) (fun _ => pure false)
  else pure false

/-- Models `self._show_word_result(target, inserted)`. -/
def showWordResult (inserted : Bool) : Wf Unit :=
  if inserted then emit (.notifyUser true .wordInserted)
  else emit (.notifyUser false .wordNotInserted)

/-- Models `self._handle_excel_flow(md_text, target, config)`: parse the table;
reject with a notification when it is not one; otherwise insert, notifying
on success and on `InsertError` — and notifying **nothing** when the
inserter returns `False` without raising. -/
def handleExcelFlow (b : Behavior) (c : Config) (md : String)
    (target : Target) : Wf Unit := do
  let grid? ← call (.parseTableCall md) (.ok (b.parse_table md))
  match grid? with
  | none => emit (.notifyUser false .excelNoTable)
  | some grid =>
    pyTry
      (do let ok ← (if target = .wps_excel then
                      call (.insertWpsExcel grid)
                        (b.wps_excel_insert grid c.excel_keep_format)
                    else
                      call (.insertExcel grid)
                        (b.excel_insert grid c.excel_keep_format))
          if ok then emit (.notifyUser true .excelInserted) else pure ())
      (fun e => e = .insertError)
      (fun _ => emit (.notifyUser false .excelInsertFail))

/-- Models `self._handle_html_to_word_flow(target, config)`: read and clean the
clipboard HTML, convert to DOCX bytes, insert via a temp file, optionally
save (failures there are only logged), then notify the result; the whole
body is wrapped with `ClipboardError` / `PandocError` / catch-all handlers. -/
def handleHtmlToWordFlow (b : Behavior) (c : Config) (target : Target) :
    Wf Unit :=
  pyTry
    (do let html ← call .readHtml (match b.clipboard_html with
                                   | .ok h => .ok h
                                   | .error _ => .error .clipboardError)
        ensurePandoc b
        let _docx ← call (.convertHtmlBytes html) (b.html_to_docx_bytes html)
        liftX b.eph_write
        let inserted ← performWordInsertion b b.eph_path target
        (if c.keep_file then
          pyTry (do let _p ← liftX b.gen_output_path
                    call .writeSaved b.write_bytes_file)
            (fun _ => true) (fun _ => pure ())
         else pure ())
        if inserted then emit (.notifyUser true .htmlInserted)
        else emit (.notifyUser false .htmlNotInserted))
    (fun _ => true)
    (fun e =>
      match e with
      | .clipboardError => emit (.notifyUser false .htmlClipFail)
      | .pandocError => emit (.notifyUser false .htmlPandocFail)
      | _ => emit (.notifyUser false .htmlGenericFail))

/-- Models `self._handle_word_flow(md_text, target, config)`: LaTeX-delimiter
normalization, DOCX conversion, insertion, optional save (its failure DOES
notify here), then the result notification.  No handler of its own:
exceptions travel to `execute`'s handlers. -/
def handleWordFlow (b : Behavior) (c : Config) (md : String)
    (target : Target) : Wf Unit := do
  let md2 := b.latex_convert md
  ensurePandoc b
  let _docx ← call (.convertMdBytes md2) (b.md_to_docx_bytes md2)
  liftX b.eph_write
  let inserted ← performWordInsertion b b.eph_path target
  (if c.keep_file then
    pyTry (do let _p ← liftX b.gen_output_path
              call .writeSaved b.write_bytes_file)
      (fun _ => true) (fun _ => emit (.notifyUser false .wordSaveFail))
   else pure ())
  showWordResult inserted

/-- Models `self._generate_and_open_document(md_text, config)` (the config is
consulted only for `save_dir`/`reference_docx`, which the filesystem and
pandoc behaviours already close over). -/
def generateAndOpenDocument (b : Behavior) (_c : Config) (md : String) :
    Wf Unit :=
  pyTry
    (do let md2 := b.latex_convert md
        let path ← liftX b.gen_output_path
        ensurePandoc b
        call (.convertMdFile md2) (b.md_to_docx_file md2 path)
        let opened ← call (.openDocument path) (b.open_document path)
        if opened then emit (.notifyUser true .docOpened)
        else emit (.notifyUser false .docOpenFail))
    (fun _ => true)
    (fun e =>
      match e with
      | .pandocError => emit (.notifyUser false .docPandocFail)
      | _ => emit (.notifyUser false .docGenericFail))

/-- Models `self._generate_and_open_spreadsheet(md_text, config)` (parses the
table a second time). -/
def generateAndOpenSpreadsheet (b : Behavior) (c : Config) (md : String) :
    Wf Unit :=
  pyTry
    (do let grid? ← call (.parseTableCall md) (.ok (b.parse_table md))
        match grid? with
        | none => emit (.notifyUser false .sheetNoTable)
        | some grid => do
          let _sd := b.expandvars c.save_dir
          liftX b.makedirs
          let path ← liftX b.gen_output_path
          let opened ← call (.openSpreadsheet grid)
            (b.gen_open_spreadsheet grid path c.excel_keep_format)
          if opened then emit (.notifyUser true .sheetOpened)
          else emit (.notifyUser false .sheetOpenFail))
    (fun _ => true)
    (fun _ => emit (.notifyUser false .sheetGenericFail))

/-- Models `self._handle_no_app_flow(md_text, config)`: reject when auto-open is
disabled; otherwise probe for a table and choose the spreadsheet or the
document generator. -/
def handleNoAppFlow (b : Behavior) (c : Config) (md : String) : Wf Unit :=
  if !c.auto_open_on_no_app then emit (.notifyUser false .noAppDisabled)
  else do
    let grid? ← call (.parseTableCall md) (.ok (b.parse_table md))
    if grid?.isSome && c.enable_excel then generateAndOpenSpreadsheet b c md
    else generateAndOpenDocument b c md

/-- The body of `PasteWorkflow.execute` (inside its `try`). -/
def executeBody (b : Behavior) (c : Config) : Wf Unit := do
  let empty ← is_clipboard_empty b
  if empty then emit (.notifyUser false .emptyClipboard)
  else do
    let isHtml ← call .checkHtmlFormat b.clipboard_has_html
    let target ← call .detect b.active_app
    if isHtml && (target = .word || target = .wps) then
      handleHtmlToWordFlow b c target
    else do
      let md ← get_clipboard_text b
      if (target = .excel || target = .wps_excel) && c.enable_excel then
        handleExcelFlow b c md target
      else if target = .word || target = .wps then
        handleWordFlow b c md target
      else handleNoAppFlow b c md

/-- Models `PasteWorkflow.execute()`: the body wrapped in the
`ClipboardError` / `PandocError` / catch-all handlers, each of which
notifies a failure and returns. -/
def execute (b : Behavior) (c : Config) : Wf Unit :=
  pyTry (executeBody b c) (fun _ => true)
    (fun e =>
      match e with
      | .clipboardError => emit (.notifyUser false .clipboardReadFail)
      | .pandocError => emit (.notifyUser false .pandocFail)
      | _ => emit (.notifyUser false .genericFail))

/-- Number of notifications in an event list. -/
def notifCount (evs : List Event) : Nat :=
  (evs.filter fun e =>
    match e with
    | .notifyUser _ _ => true
    | _ => false).length

/-! ### Concrete behaviours and configurations used to instantiate claims -/

/-- An all-succeeding behaviour baseline; individual scenarios override
fields. -/
def okB : Behavior where
  clipboard_text := .ok "hello"
  clipboard_has_html := .ok false
  clipboard_html := .ok "<span>**bold**</span>"
  active_app := .ok .noneDetected
  parse_table := fun _ => none
  latex_convert := fun s => s
  pandoc_init := .ok ()
  md_to_docx_bytes := fun _ => .ok "DOCX"
  html_to_docx_bytes := fun _ => .ok "DOCX"
  md_to_docx_file := fun _ _ => .ok ()
  eph_path := "tmp.docx"
  eph_write := .ok ()
  word_insert := fun _ => .ok true
  wps_insert := fun _ => .ok true
  excel_insert := fun _ _ => .ok true
  wps_excel_insert := fun _ _ => .ok true
  gen_output_path := .ok "out.docx"
  write_bytes_file := .ok ()
  expandvars := fun s => s
  makedirs := .ok ()
  open_document := fun _ => .ok true
  gen_open_spreadsheet := fun _ _ _ => .ok true

/-- The configuration all `config.get` defaults yield. -/
def defConfig : Config where
  enable_excel := true
  keep_file := false
  auto_open_on_no_app := true
  excel_keep_format := true
  save_dir := ""

/-- A two-row sample grid. -/
def sampleGrid : TableData := [["a", "b"], ["1", "2"]]

/-- Verdict of `is_clipboard_empty` computed directly from a behaviour: the
read raises, or the text is empty or whitespace-only. -/
def emptyClipboardB (b : Behavior) : Bool :=
  match b.clipboard_text with
  | .error _ => true
  | .ok t => isBlankStr t

/-- The notification tag each of `execute`'s exception handlers produces. -/
def handlerTag : PyExc → NotifTag
  | .clipboardError => .clipboardReadFail
  | .pandocError => .pandocFail
  | _ => .genericFail

/-- The `<span>**bold**</span>` fragment of spec §8 scenario C. -/
def spanFragment : String := "<span>**bold**</span>"

/-- Parse tree of `spanFragment`: one inline wrapper around literal
Markdown text. -/
def spanTree : List HNode := [.elem "span".data [.textNode "**bold**".data]]

/-- Parse tree of `<div></div>`: no semantic tag, not an inline wrapper,
and empty visible text. -/
def divTree : List HNode := [.elem "div".data []]

/-- Parse tree of `<table><tr><td>x</td></tr></table>`. -/
def tableTree : List HNode :=
  [.elem "table".data
    [.elem "tr".data [.elem "td".data [.textNode "x".data]]]]

/-- Parse tree of `<br>`. -/
def brTree : List HNode := [.elem "br".data []]

/-- Behaviour: HTML on the clipboard and the word processor focused; the
fragment is a plain Markdown wrapper. -/
def htmlWordB : Behavior :=
  { okB with clipboard_text := .ok "**bold**",
             clipboard_has_html := .ok true,
             clipboard_html := .ok spanFragment,
             active_app := .ok Target.word }

/-- Behaviour: Excel focused, the clipboard parses as a table, and the
inserter reports failure by returning `False` without raising. -/
def excelSoftFailB : Behavior :=
  { okB with clipboard_text := .ok "| a | b |",
             active_app := .ok Target.excel,
             parse_table := fun _ => some sampleGrid,
             excel_insert := fun _ _ => .ok false }

/-- Behaviour: Word focused and generating the save path raises, so the
optional file save fails. -/
def wordSaveFailB : Behavior :=
  { okB with active_app := .ok Target.word,
             gen_output_path := .error .otherError }

/-- Behaviour: the clipboard text is whitespace only. -/
def wsClipB : Behavior := { okB with clipboard_text := .ok "   " }

/-- Behaviour: Word focused and the Markdown conversion raises
`PandocError`. -/
def pandocFailB : Behavior :=
  { okB with active_app := .ok Target.word,
             md_to_docx_bytes := fun _ => .error .pandocError }

/-- Behaviour: Excel focused with a parsable table and a succeeding
inserter. -/
def excelOkB : Behavior :=
  { okB with clipboard_text := .ok "| a | b |",
             active_app := .ok Target.excel,
             parse_table := fun _ => some sampleGrid }

/-- Behaviour: the WPS spreadsheet focused and the clipboard not a table. -/
def excelNoTableB : Behavior :=
  { okB with clipboard_text := .ok "plain",
             active_app := .ok Target.wps_excel }

/-- The default configuration with `keep_file` enabled. -/
def keepConfig : Config := { defConfig with keep_file := true }

/-- The default configuration with `enable_excel` disabled. -/
def noExcelConfig : Config := { defConfig with enable_excel := false }

/-- A CF_HTML payload with digit `StartFragment`/`EndFragment` offsets. -/
def cfOffsets : String := "StartFragment:5\nEndFragment:9\n0123456789abcdef"

/-- A payload with no usable fragment offsets, no anchors, and a
non-numeric `StartHTML` value. -/
def cfBadStartHtml : String := "StartHTML:abc\nhello"

/-! ## Computation lemmas for the workflow interpreter -/

/-- Computation rule for `Wf`'s bind on a successful step. -/
@[simp] theorem wf_bind_ok (evs : List Event) (a : α) (f : α → Wf β) :
    wfBind (evs, Except.ok a) f = (evs ++ (f a).1, (f a).2) := rfl

/-- Computation rule for `Wf`'s bind on a raised exception. -/
@[simp] theorem wf_bind_err (evs : List Event) (e : PyExc) (f : α → Wf β) :
    wfBind (evs, Except.error e) f = (evs, Except.error e) := rfl

/-- Computation rule for `Wf`'s pure. -/
@[simp] theorem wf_pure (a : α) : (pure a : Wf α) = ([], Except.ok a) := rfl

/-- Models `call` unfolded. -/
@[simp] theorem call_def (ev : Event) (r : Except PyExc α) :
    call ev r = ([ev], r) := rfl

/-- Models `emit` unfolded. -/
@[simp] theorem emit_def (ev : Event) :
    emit ev = ([ev], Except.ok ()) := rfl

/-- Models `liftX` unfolded. -/
@[simp] theorem liftX_def (r : Except PyExc α) : liftX r = ([], r) := rfl

/-- Models `pyTry` on a successful body. -/
@[simp] theorem pyTry_ok (evs : List Event) (a : α) (sel : PyExc → Bool)
    (handler : PyExc → Wf α) :
    pyTry (evs, Except.ok a) sel handler = (evs, Except.ok a) := rfl

/-- Models `pyTry` on a raised exception. -/
@[simp] theorem pyTry_err (evs : List Event) (e : PyExc) (sel : PyExc → Bool)
    (handler : PyExc → Wf α) :
    pyTry (evs, Except.error e) sel handler =
      if sel e then (evs ++ (handler e).1, (handler e).2)
      else (evs, Except.error e) := rfl


/-! ## Lemmas about the embedded string and line primitives -/

/-- Python slicing over the whole range is the identity. -/
theorem pySliceInt_full (s : List Char) : pySliceInt s 0 s.length = s := by
  unfold pySliceInt
  have h1 : ¬ ((0:Int) < 0) := by omega
  have h2 : ¬ ((s.length : Int) < 0) := by omega
  simp only [h1, h2, if_false, min_self]
  rw [show ((0:Int) ⊓ (s.length:Int)) = 0 from min_eq_left (by omega)]
  simp [Int.toNat_natCast]

/-- Characterization of `memL` as list membership. -/
theorem memL_iff_mem (x : List Char) (ys : List (List Char)) :
    memL x ys = true ↔ x ∈ ys := by
  induction ys with
  | nil => simp [memL]
  | cons y ys ih => simp [memL, ih]


theorem blank_nil : blank [] = true := rfl

theorem lineType_irrel (l : List Char) (ic it it2 : Bool) :
    lineType l ic it = lineType l ic it2 := rfl

theorem lineType_of_blank (l : List Char) (ic it : Bool) (h : blank l = true) :
    lineType l ic it = .empty := by
  simp [lineType, h]

theorem needBlankAfter_empty (l : List Char) (ic : Bool) :
    needBlankAfter .empty l ic = false := rfl

theorem needBlankBefore_empty (pt : LType) :
    needBlankBefore pt .empty = false := by
  unfold needBlankBefore
  split
  · rfl
  · rfl

theorem splitNL_ne_nil (s : List Char) : splitNL s ≠ [] := by
  induction s with
  | nil => simp [splitNL]
  | cons c cs ih =>
    simp only [splitNL]
    split
    · simp
    · rcases h : splitNL cs with _ | ⟨l, ls⟩
      · simp
      · simp

theorem splitNL_no_nl (s : List Char) : ∀ l ∈ splitNL s, '\n' ∉ l := by
  induction s with
  | nil => intro l hl; simp [splitNL] at hl; simp [hl]
  | cons c cs ih =>
    intro l hl
    simp only [splitNL] at hl
    by_cases hc : c = '\n'
    · simp [hc] at hl
      rcases hl with h | h
      · simp [h]
      · exact ih l h
    · simp [hc] at hl
      rcases h : splitNL cs with _ | ⟨l0, ls⟩
      · exact absurd h (splitNL_ne_nil cs)
      · rw [h] at hl
        simp at hl
        rcases hl with ⟨rfl⟩ | hmem
        · intro hin
          rcases List.mem_cons.mp hin with h1 | h1
          · exact hc h1.symm
          · exact ih l0 (h ▸ List.mem_cons_self _ _) h1
        · exact ih l (h ▸ List.mem_cons_of_mem _ hmem)

theorem splitNL_chars (s : List Char) :
    ∀ l ∈ splitNL s, ∀ c ∈ l, c ∈ s := by
  induction s with
  | nil => intro l hl c hc; simp [splitNL] at hl; simp [hl] at hc
  | cons a cs ih =>
    intro l hl c hc
    simp only [splitNL] at hl
    by_cases ha : a = '\n'
    · simp [ha] at hl
      rcases hl with h | h
      · simp [h] at hc
      · exact List.mem_cons_of_mem _ (ih l h c hc)
    · simp [ha] at hl
      rcases h : splitNL cs with _ | ⟨l0, ls⟩
      · exact absurd h (splitNL_ne_nil cs)
      · rw [h] at hl
        simp at hl
        rcases hl with ⟨rfl⟩ | hmem
        · rcases List.mem_cons.mp hc with h1 | h1
          · simp [h1]
          · exact List.mem_cons_of_mem _ (ih l0 (h ▸ List.mem_cons_self _ _) c h1)
        · exact List.mem_cons_of_mem _ (ih l (h ▸ List.mem_cons_of_mem _ hmem) c hc)

theorem joinNL_cons (l : List Char) (M : List (List Char)) (h : M ≠ []) :
    joinNL (l :: M) = l ++ '\n' :: joinNL M := by
  cases M with
  | nil => exact absurd rfl h
  | cons m ms => rfl

theorem joinNL_chars (L : List (List Char)) :
    ∀ c ∈ joinNL L, c = '\n' ∨ ∃ l ∈ L, c ∈ l := by
  induction L with
  | nil => intro c hc; simp [joinNL] at hc
  | cons l ls ih =>
    intro c hc
    cases ls with
    | nil => simp [joinNL] at hc; right; exact ⟨l, by simp, hc⟩
    | cons m ms =>
      rw [joinNL_cons _ _ (by simp)] at hc
      rcases List.mem_append.mp hc with h | h
      · right; exact ⟨l, by simp, h⟩
      · rcases List.mem_cons.mp h with h1 | h1
        · left; exact h1
        · rcases ih c h1 with h2 | ⟨l2, hl2, hc2⟩
          · left; exact h2
          · right; exact ⟨l2, by simp [hl2], hc2⟩


theorem collapseGo_no_nl (l : List Char) (h : '\n' ∉ l) :
    ∀ k, collapseGo k l = l := by
  induction l with
  | nil => intro k; rfl
  | cons c cs ih =>
    intro k
    have hc : c ≠ '\n' := fun hc => h (by simp [hc])
    simp only [collapseGo, hc, if_false]
    rw [ih (fun hm => h (List.mem_cons_of_mem _ hm)) 0]

theorem collapseGo_append_no_nl (l : List Char) (h : '\n' ∉ l)
    (s : List Char) (k : Nat) :
    collapseGo k (l ++ s) = l ++ collapseGo (if l = [] then k else 0) s := by
  induction l generalizing k with
  | nil => simp
  | cons c cs ih =>
    have hc : c ≠ '\n' := fun hc => h (by simp [hc])
    simp only [List.cons_append, collapseGo, hc, if_false, List.append_eq]
    rw [ih (fun hm => h (List.mem_cons_of_mem _ hm)) 0]
    simp

theorem collapseGo_chars (s : List Char) :
    ∀ k, ∀ c ∈ collapseGo k s, c ∈ s := by
  induction s with
  | nil => intro k c hc; simp [collapseGo] at hc
  | cons a cs ih =>
    intro k c hc
    simp only [collapseGo] at hc
    by_cases ha : a = '\n'
    · simp only [ha, if_true] at hc
      by_cases hk : 2 ≤ k
      · simp only [hk, if_true] at hc
        exact List.mem_cons_of_mem _ (ih k c hc)
      · simp only [hk, if_false] at hc
        rcases List.mem_cons.mp hc with h | h
        · simp [ha, h]
        · exact List.mem_cons_of_mem _ (ih (k+1) c h)
    · simp only [ha, if_false] at hc
      rcases List.mem_cons.mp hc with h | h
      · simp [h]
      · exact List.mem_cons_of_mem _ (ih 0 c h)

theorem splitNL_no_nl_id (l : List Char) (h : '\n' ∉ l) :
    splitNL l = [l] := by
  induction l with
  | nil => rfl
  | cons c cs ih =>
    have hc : c ≠ '\n' := fun hc => h (by simp [hc])
    simp only [splitNL, hc, if_false]
    rw [ih (fun hm => h (List.mem_cons_of_mem _ hm))]

theorem splitNL_append (l : List Char) (h : '\n' ∉ l) (s l0 : List Char)
    (ls : List (List Char)) (hs : splitNL s = l0 :: ls) :
    splitNL (l ++ s) = (l ++ l0) :: ls := by
  induction l with
  | nil => simpa using hs
  | cons c cs ih =>
    have hc : c ≠ '\n' := fun hc => h (by simp [hc])
    simp only [List.cons_append, splitNL, hc, if_false, List.append_eq]
    rw [ih (fun hm => h (List.mem_cons_of_mem _ hm))]

theorem splitNL_joinNL (L : List (List Char)) (hne : L ≠ [])
    (hnl : ∀ l ∈ L, '\n' ∉ l) : splitNL (joinNL L) = L := by
  induction L with
  | nil => exact absurd rfl hne
  | cons l ls ih =>
    cases ls with
    | nil => exact splitNL_no_nl_id l (hnl l (by simp))
    | cons m ms =>
      rw [joinNL_cons _ _ (by simp)]
      have hrec : splitNL (joinNL (m :: ms)) = m :: ms :=
        ih (by simp) (fun x hx => hnl x (List.mem_cons_of_mem _ hx))
      have hstep : splitNL ('\n' :: joinNL (m :: ms)) = [] :: m :: ms := by
        simp only [splitNL, if_true]
        rw [hrec]
      rw [splitNL_append l (hnl l (by simp)) _ _ _ hstep]
      simp

theorem mergeGo_cons_cons (k : Nat) (l m : List Char)
    (ms : List (List Char)) :
    mergeGo k (l :: m :: ms) =
      if 2 ≤ (if l = [] then k else 0) then
        mergeGo (if l = [] then k else 0) (m :: ms)
      else l :: mergeGo ((if l = [] then k else 0) + 1) (m :: ms) := rfl

theorem mergeGo_ne_nil (L : List (List Char)) (h : L ≠ []) (k : Nat) :
    mergeGo k L ≠ [] := by
  induction L generalizing k with
  | nil => exact absurd rfl h
  | cons l ls ih =>
    cases ls with
    | nil => simp [mergeGo]
    | cons m ms =>
      rw [mergeGo_cons_cons]
      by_cases h2 : 2 ≤ (if l = [] then k else 0)
      · rw [if_pos h2]; exact ih (by simp) _
      · rw [if_neg h2]; simp

theorem mergeGo_mem (L : List (List Char)) :
    ∀ k, ∀ x ∈ mergeGo k L, x ∈ L := by
  induction L with
  | nil => intro k x hx; simp [mergeGo] at hx
  | cons l ls ih =>
    intro k x hx
    cases ls with
    | nil => simp [mergeGo] at hx; simp [hx]
    | cons m ms =>
      rw [mergeGo_cons_cons] at hx
      by_cases h2 : 2 ≤ (if l = [] then k else 0)
      · rw [if_pos h2] at hx
        exact List.mem_cons_of_mem _ (ih _ x hx)
      · rw [if_neg h2] at hx
        rcases List.mem_cons.mp hx with h | h
        · simp [h]
        · exact List.mem_cons_of_mem _ (ih _ x h)

theorem mergeGo_idem (L : List (List Char)) :
    ∀ k, mergeGo k (mergeGo k L) = mergeGo k L := by
  induction L with
  | nil => intro k; rfl
  | cons l ls ih =>
    intro k
    cases ls with
    | nil => rfl
    | cons m ms =>
      rw [mergeGo_cons_cons]
      by_cases h2 : 2 ≤ (if l = [] then k else 0)
      · rw [if_pos h2]
        have hl : l = [] := by
          by_contra hne
          simp [hne] at h2
        subst hl
        simp only [if_pos rfl] at h2 ⊢
        exact ih k
      · rw [if_neg h2]
        rcases hM : mergeGo ((if l = [] then k else 0) + 1) (m :: ms)
            with _ | ⟨m2, ms2⟩
        · exact absurd hM (mergeGo_ne_nil _ (by simp) _)
        · rw [mergeGo_cons_cons, if_neg h2, ← hM, ih]

theorem bridge (L : List (List Char)) (hne : L ≠ [])
    (hnl : ∀ l ∈ L, '\n' ∉ l) :
    ∀ k, collapseGo k (joinNL L) = joinNL (mergeGo k L) := by
  induction L with
  | nil => exact absurd rfl hne
  | cons l ls ih =>
    intro k
    cases ls with
    | nil =>
      simp only [joinNL, mergeGo]
      exact collapseGo_no_nl l (hnl l (by simp)) k
    | cons m ms =>
      rw [joinNL_cons _ _ (by simp)]
      rw [collapseGo_append_no_nl l (hnl l (by simp))]
      have ihk := ih (by simp) (fun x hx => hnl x (List.mem_cons_of_mem _ hx))
      rw [mergeGo_cons_cons]
      by_cases h2 : 2 ≤ (if l = [] then k else 0)
      · rw [if_pos h2]
        have hl : l = [] := by
          by_contra hne2
          simp [hne2] at h2
        subst hl
        have hksimp : (if ([] : List Char) = [] then k else 0) = k := by simp
        rw [hksimp] at h2 ⊢
        have hstep : collapseGo k ('\n' :: joinNL (m :: ms)) =
            collapseGo k (joinNL (m :: ms)) := by
          simp [collapseGo, h2]
        simp only [List.nil_append]
        rw [hstep, ihk k]
      · rw [if_neg h2]
        simp only [collapseGo, if_true, if_neg h2]
        rw [ihk _, joinNL_cons _ _ (mergeGo_ne_nil _ (by simp) _)]


theorem replaceCRLF_cons_ne (c : Char) (cs : List Char) (h : c ≠ '\r') :
    replaceCRLF (c :: cs) = c :: replaceCRLF cs := by
  cases cs with
  | nil => rfl
  | cons d ds =>
    simp only [replaceCRLF]
    rw [if_neg]
    simp [h]

theorem replaceCRLF_no_cr (s : List Char) (h : '\r' ∉ s) :
    replaceCRLF s = s := by
  induction s with
  | nil => rfl
  | cons c cs ih =>
    rw [replaceCRLF_cons_ne c cs (fun hc => h (by simp [hc]))]
    rw [ih (fun hm => h (List.mem_cons_of_mem _ hm))]

theorem normEOL_no_cr_input (s : List Char) (h : '\r' ∉ s) :
    normEOL s = s := by
  unfold normEOL
  rw [replaceCRLF_no_cr s h]
  induction s with
  | nil => rfl
  | cons c cs ih =>
    have hc : c ≠ '\r' := fun hc => h (by simp [hc])
    simp only [List.map_cons, hc, if_false]
    rw [ih (fun hm => h (List.mem_cons_of_mem _ hm))]

theorem normEOL_no_cr (s : List Char) : '\r' ∉ normEOL s := by
  unfold normEOL
  intro hmem
  rcases List.mem_map.mp hmem with ⟨c, _, hc⟩
  by_cases h : c = '\r' <;> simp [h] at hc

theorem hasCRLF_of_no_cr (s : List Char) (h : '\r' ∉ s) :
    hasCRLF s = false := by
  induction s with
  | nil => rfl
  | cons c cs ih =>
    cases cs with
    | nil => rfl
    | cons d ds =>
      have hc : c ≠ '\r' := fun hc => h (by simp [hc])
      simp [hasCRLF, hc, ih (fun hm => h (List.mem_cons_of_mem _ hm))]

theorem expandCRLF_ne_nil (z : List Char) (h : z ≠ []) :
    expandCRLF z ≠ [] := by
  cases z with
  | nil => exact absurd rfl h
  | cons c cs =>
    simp only [expandCRLF]
    by_cases hc : c = '\n' <;> simp [hc]

theorem expandCRLF_no_nl (z : List Char) (h : '\n' ∉ z) :
    expandCRLF z = z := by
  induction z with
  | nil => rfl
  | cons c cs ih =>
    have hc : c ≠ '\n' := fun hc => h (by simp [hc])
    simp only [expandCRLF, hc, if_false]
    rw [ih (fun hm => h (List.mem_cons_of_mem _ hm))]
    simp

theorem hasCRLF_expand_of_mem (z : List Char) (hcr : '\r' ∉ z)
    (h : '\n' ∈ z) : hasCRLF (expandCRLF z) = true := by
  induction z with
  | nil => simp at h
  | cons c cs ih =>
    by_cases hc : c = '\n'
    · subst hc
      simp only [expandCRLF, if_pos rfl]
      rfl
    · have hcs : '\n' ∈ cs := by
        rcases List.mem_cons.mp h with h1 | h1
        · exact absurd h1.symm hc
        · exact h1
      have hcr2 : '\r' ∉ cs := fun hm => hcr (List.mem_cons_of_mem _ hm)
      have hrec := ih hcr2 hcs
      have hcne : c ≠ '\r' := fun hx => hcr (by simp [hx])
      simp only [expandCRLF, hc, if_false, List.singleton_append]
      rcases hE : expandCRLF cs with _ | ⟨d, ds⟩
      · rw [hE] at hrec; simp [hasCRLF] at hrec
      · rw [hE] at hrec
        simp only [hasCRLF, hrec, Bool.or_true]

theorem replaceCRLF_expand (z : List Char) (hcr : '\r' ∉ z) :
    replaceCRLF (expandCRLF z) = z := by
  induction z with
  | nil => rfl
  | cons c cs ih =>
    have hcr2 : '\r' ∉ cs := fun hm => hcr (List.mem_cons_of_mem _ hm)
    by_cases hc : c = '\n'
    · subst hc
      have hexp : expandCRLF ('\n' :: cs) = '\r' :: '\n' :: expandCRLF cs := by
        simp [expandCRLF]
      rw [hexp]
      have hstep : replaceCRLF ('\r' :: '\n' :: expandCRLF cs) =
          '\n' :: replaceCRLF (expandCRLF cs) := by
        simp [replaceCRLF]
      rw [hstep, ih hcr2]
    · have hcne : c ≠ '\r' := fun hx => hcr (by simp [hx])
      have hexp : expandCRLF (c :: cs) = c :: expandCRLF cs := by
        simp [expandCRLF, hc]
      rw [hexp, replaceCRLF_cons_ne c _ hcne, ih hcr2]

theorem normEOL_expand (z : List Char) (hcr : '\r' ∉ z) :
    normEOL (expandCRLF z) = z := by
  unfold normEOL
  rw [replaceCRLF_expand z hcr]
  induction z with
  | nil => rfl
  | cons c cs ih =>
    have hc : c ≠ '\r' := fun hx => hcr (by simp [hx])
    simp only [List.map_cons, hc, if_false]
    rw [ih (fun hm => hcr (List.mem_cons_of_mem _ hm))]

theorem processGo_ne_nil (M : List (List Char)) (h : M ≠ [])
    (ic it : Bool) (pt : LType) (lnb : Bool) :
    processGo ic it pt lnb M ≠ [] := by
  cases M with
  | nil => exact absurd rfl h
  | cons l rest =>
    simp only [processGo]
    split <;> simp

theorem processGo_mem (M : List (List Char)) :
    ∀ ic it pt lnb, ∀ x ∈ processGo ic it pt lnb M, x = [] ∨ x ∈ M := by
  induction M with
  | nil => intro ic it pt lnb x hx; simp [processGo] at hx
  | cons l rest ih =>
    intro ic it pt lnb x hx
    simp only [processGo] at hx
    rcases List.mem_append.mp hx with h1 | h1
    · split at h1
      · simp at h1; left; exact h1
      · simp at h1
    · rcases List.mem_cons.mp h1 with h2 | h2
      · right; simp [h2]
      · rcases List.mem_append.mp h2 with h3 | h3
        · split at h3
          · simp at h3; left; exact h3
          · simp at h3
        · rcases ih _ _ _ _ x h3 with h4 | h4
          · left; exact h4
          · right; exact List.mem_cons_of_mem _ h4

/-! ## The no-insertion invariant of `normalize_markdown` -/


theorem nextNB_def (rest : List (List Char)) :
    (match rest with | [] => false | r :: _ => !(blank r)) =
      (match rest with | [] => false | r :: _ => !(blank r)) := rfl

theorem processGo_cons (ic it : Bool) (pt : LType) (lnb : Bool)
    (l : List Char) (rest : List (List Char)) :
    processGo ic it pt lnb (l :: rest) =
      (if needBlankBefore pt (lineType l ic it) && lnb then [[]] else []) ++
        l :: ((if needBlankAfter (lineType l ic it) l ic &&
                  (match rest with | [] => false | r :: _ => !(blank r))
               then [[]] else []) ++
          processGo (if isFence l then !ic else ic)
            (if lineType l ic it = .table then true
             else if it && !(lineType l ic it = .empty) then false else it)
            (lineType l ic it)
            (!(needBlankAfter (lineType l ic it) l ic &&
                (match rest with | [] => false | r :: _ => !(blank r)))
              && !(blank l))
            rest) := rfl

theorem good_nil_cons (ic : Bool) (X : List (List Char)) (h : Good ic X) :
    Good ic ([] :: X) := by
  cases X with
  | nil => trivial
  | cons x xs =>
    refine ⟨?_, ?_, ?_⟩
    · intro _
      rfl
    · intro hbl
      rw [blank_nil] at hbl
      exact Bool.noConfusion hbl
    · exact h

theorem good_tail (ic : Bool) (l : List Char) (X : List (List Char))
    (h : Good ic (l :: X)) : Good (tog l ic) X := by
  cases X with
  | nil => trivial
  | cons x xs => exact h.2.2


theorem processGo_fixed (P : List (List Char)) :
    ∀ ic it pt lnb, Good ic P →
    (∀ l rest, P = l :: rest →
        (needBlankBefore pt (lineType l ic false) && lnb) = false) →
    processGo ic it pt lnb P = P := by
  induction P with
  | nil => intro ic it pt lnb _ _; rfl
  | cons l rest ih =>
    intro ic it pt lnb hG hH
    have hins1 : (needBlankBefore pt (lineType l ic it) && lnb) = false :=
      hH l rest rfl
    rw [processGo_cons, lineType_irrel l ic it false] at *
    rw [hins1]
    simp only [Bool.false_eq_true, if_false, List.nil_append]
    cases rest with
    | nil => simp [processGo]
    | cons r rest2 =>
      obtain ⟨hc1, hc2, hG'⟩ := hG
      simp only [tog] at hc2 hG'
      have hins2 : (needBlankAfter (lineType l ic false) l ic &&
          !(blank r)) = false := by
        by_cases hbr : blank r = true
        · rw [hbr]; simp
        · have hbr' : blank r = false := by
            revert hbr; cases blank r <;> simp
          rw [hc1 hbr']; simp
      rw [hins2]
      simp only [Bool.false_eq_true, if_false, List.nil_append,
        Bool.not_false, Bool.true_and]
      congr 1
      apply ih
      · exact hG'
      · intro l2 rest3 heq
        injection heq with h1 h2
        subst h1
        subst h2
        by_cases hbl : blank l = true
        · rw [hbl]; simp
        · have hbl' : blank l = false := by
            revert hbl; cases blank l <;> simp
          by_cases hbr : blank r = true
          · rw [lineType_of_blank r _ _ hbr, needBlankBefore_empty]; simp
          · have hbr' : blank r = false := by
              revert hbr; cases blank r <;> simp
            rw [hc2 hbl' hbr']
            simp


theorem mergeGo_head_one (m : List Char) (ms : List (List Char)) :
    ∃ T, mergeGo 1 (m :: ms) = m :: T := by
  cases ms with
  | nil => exact ⟨[], rfl⟩
  | cons m2 ms2 =>
    refine ⟨mergeGo ((if m = [] then 1 else 0) + 1) (m2 :: ms2), ?_⟩
    rw [mergeGo_cons_cons, if_neg]
    by_cases h : m = [] <;> simp [h]

theorem good_mergeGo (L : List (List Char)) :
    ∀ ic k, Good ic L → Good ic (mergeGo k L) := by
  induction L with
  | nil => intro ic k _; trivial
  | cons l ls ih =>
    intro ic k hG
    cases ls with
    | nil => exact hG
    | cons m ms =>
      obtain ⟨hc1, hc2, hG'⟩ := hG
      rw [mergeGo_cons_cons]
      by_cases h2 : 2 ≤ (if l = [] then k else 0)
      · rw [if_pos h2]
        have hl : l = [] := by
          by_contra hne
          simp [hne] at h2
        subst hl
        exact ih ic _ hG'
      · rw [if_neg h2]
        rcases hM : mergeGo ((if l = [] then k else 0) + 1) (m :: ms)
            with _ | ⟨m2, ms2⟩
        · exact absurd hM (mergeGo_ne_nil _ (by simp) _)
        · by_cases hbl : blank l = true
          · refine ⟨?_, ?_, ?_⟩
            · intro _
              rw [lineType_of_blank l _ _ hbl]
              exact needBlankAfter_empty l ic
            · intro hbl2 _
              rw [hbl] at hbl2
              exact Bool.noConfusion hbl2
            · rw [← hM]
              exact ih (tog l ic) _ hG'
          · have hlne : l ≠ [] := by
              intro h
              rw [h, blank_nil] at hbl
              exact hbl rfl
            rw [if_neg hlne] at hM
            obtain ⟨T, hT⟩ := mergeGo_head_one m ms
            rw [show (0:Nat) + 1 = 1 from rfl, hT] at hM
            injection hM with he1 he2
            subst he1
            refine ⟨?_, ?_, ?_⟩
            · intro hbm
              exact hc1 hbm
            · intro hb1 hb2
              exact hc2 hb1 hb2
            · rw [← he2, ← hT]
              exact ih (tog l ic) _ hG'

theorem good_cons_nil_cons (ic : Bool) (l : List Char)
    (X : List (List Char)) (h : Good (tog l ic) X) :
    Good ic (l :: [] :: X) := by
  refine ⟨?_, ?_, ?_⟩
  · intro hb
    rw [blank_nil] at hb
    exact Bool.noConfusion hb
  · intro _ hb
    rw [blank_nil] at hb
    exact Bool.noConfusion hb
  · exact good_nil_cons _ _ h

theorem good_cons_rec (ic j : Bool) (l r : List Char)
    (rest2 : List (List Char))
    (hrec : ∀ ic2 it2 pt2 lnb2,
      Good ic2 (processGo ic2 it2 pt2 lnb2 (r :: rest2)))
    (hafter : (needBlankAfter (lineType l ic false) l ic && !(blank r))
      = false) :
    Good ic (l :: processGo (tog l ic) j (lineType l ic false) (!(blank l))
      (r :: rest2)) := by
  rw [processGo_cons (tog l ic) j (lineType l ic false) (!(blank l)) r rest2,
    lineType_irrel r (tog l ic) j false]
  by_cases h1b : (needBlankBefore (lineType l ic false)
      (lineType r (tog l ic) false) && !(blank l)) = true
  · rw [if_pos h1b]
    apply good_cons_nil_cons
    have hthis := hrec (tog l ic) j (lineType l ic false) (!(blank l))
    rw [processGo_cons, lineType_irrel r (tog l ic) j false,
      if_pos h1b] at hthis
    simp only [List.cons_append, List.nil_append] at hthis
    exact good_tail (tog l ic) [] _ hthis
  · rw [if_neg h1b]
    simp only [List.nil_append]
    refine ⟨?_, ?_, ?_⟩
    · intro hbr
      rw [hbr] at hafter
      simpa using hafter
    · intro hbl _
      have h1c : (needBlankBefore (lineType l ic false)
          (lineType r (tog l ic) false) && !(blank l)) = false := by
        revert h1b
        cases (needBlankBefore (lineType l ic false)
          (lineType r (tog l ic) false) && !(blank l)) <;> simp
      rw [hbl] at h1c
      simpa using h1c
    · have hthis := hrec (tog l ic) j (lineType l ic false) (!(blank l))
      rw [processGo_cons, lineType_irrel r (tog l ic) j false,
        if_neg h1b] at hthis
      simpa using hthis

theorem good_processGo (M : List (List Char)) :
    ∀ ic it pt lnb, Good ic (processGo ic it pt lnb M) := by
  induction M with
  | nil => intro ic it pt lnb; trivial
  | cons l rest ih =>
    intro ic it pt lnb
    rw [processGo_cons, lineType_irrel l ic it false]
    cases rest with
    | nil =>
      simp only [Bool.and_false, Bool.false_eq_true, if_false,
        List.nil_append, List.append_nil, processGo]
      by_cases h1 : (needBlankBefore pt (lineType l ic false) && lnb) = true
      · rw [if_pos h1]
        exact good_nil_cons ic [l] trivial
      · rw [if_neg h1]
        trivial
    | cons r rest2 =>
      rw [show (if isFence l then !ic else ic) = tog l ic from rfl]
      by_cases h2 : (needBlankAfter (lineType l ic false) l ic && !(blank r))
          = true
      · rw [if_pos h2]
        have goodMain := good_cons_nil_cons ic l _
          (ih (tog l ic)
            (if lineType l ic false = LType.table then true
             else if it && !(lineType l ic false = LType.empty) then false
             else it)
            (lineType l ic false)
            (!(needBlankAfter (lineType l ic false) l ic && !(blank r))
              && !(blank l)))
        by_cases h1 : (needBlankBefore pt (lineType l ic false) && lnb) = true
        · rw [if_pos h1]
          exact good_nil_cons ic _ goodMain
        · rw [if_neg h1]
          exact goodMain
      · rw [if_neg h2]
        have h2f : (needBlankAfter (lineType l ic false) l ic && !(blank r))
            = false := by
          revert h2
          cases (needBlankAfter (lineType l ic false) l ic && !(blank r)) <;>
            simp
        have hlnb : (!(needBlankAfter (lineType l ic false) l ic
            && !(blank r)) && !(blank l)) = !(blank l) := by
          rw [h2f]
          simp
        rw [hlnb]
        have goodMain := good_cons_rec ic
          (if lineType l ic false = LType.table then true
           else if it && !(lineType l ic false = LType.empty) then false
           else it)
          l r rest2 (fun a b c d => ih a b c d) h2f
        by_cases h1 : (needBlankBefore pt (lineType l ic false) && lnb) = true
        · rw [if_pos h1]
          exact good_nil_cons ic _ goodMain
        · rw [if_neg h1]
          exact goodMain


/-! ## Claim theorems -/

/-- Claim C1 (routing bug evidence): with an HTML-format payload on the
clipboard, the word processor focused, and the fragment being exactly the
plain-Markdown wrapper `<span>**bold**</span>` — which
`is_plain_html_fragment` classifies as plain — `execute` still runs the
HTML-to-Word flow (reads the clipboard HTML and converts it with the HTML
converter) and never invokes the Markdown conversion: the classifier is
defined in `html_analyzer.py` but never called by the routing. -/
theorem c1_plain_html_still_routed_to_html_flow :
    is_plain_html_fragment spanFragment.data spanTree = true
    ∧ execute htmlWordB defConfig =
        ([.readText, .checkHtmlFormat, .detect, .readHtml,
          .convertHtmlBytes spanFragment, .insertWord "tmp.docx",
          .notifyUser true .htmlInserted], Except.ok ())
    ∧ (∀ md, Event.convertMdBytes md ∉ (execute htmlWordB defConfig).1) := by
  refine ⟨by decide, by rfl, ?_⟩
  intro md h
  rw [show execute htmlWordB defConfig =
        ([.readText, .checkHtmlFormat, .detect, .readHtml,
          .convertHtmlBytes spanFragment, .insertWord "tmp.docx",
          .notifyUser true .htmlInserted], Except.ok ()) from rfl] at h
  simp at h

/-- Claim C2 (notification-invariant violations): a single trigger can emit
zero notifications — the Excel flow is silent when the inserter returns
`False` without raising — and can emit two — the Word flow notifies a save
failure and then also the insertion result. -/
theorem c2_notification_count_violations :
    notifCount (execute excelSoftFailB defConfig).1 = 0
    ∧ notifCount (execute wordSaveFailB keepConfig).1 = 2 := by
  constructor <;> rfl

/-- Claim C3: for every collaborator behaviour and configuration —
including collaborators that raise `ClipboardError`, `PandocError`,
`InsertError` or anything else — `execute` returns normally, and any
exception escaping the body is converted by `execute`'s own handlers into
exactly one failure notification chosen by exception class. -/
theorem c3_execute_never_propagates :
    (∀ b c, (execute b c).2 = Except.ok ())
    ∧ (∀ b c evs e, executeBody b c = (evs, Except.error e) →
        execute b c =
          (evs ++ [.notifyUser false (handlerTag e)], Except.ok ())) := by
  constructor
  · intro b c
    unfold execute pyTry
    rcases hE : executeBody b c with ⟨evs, r⟩
    cases r with
    | ok a => rfl
    | error e => cases e <;> rfl
  · intro b c evs e hE
    unfold execute pyTry
    rw [hE]
    cases e <;> rfl

/-- Witness for C3: a behaviour whose Markdown conversion raises
`PandocError` yields the single pandoc-failure notification. -/
theorem c3_execute_never_propagates_witness :
    execute pandocFailB defConfig =
      ([.readText, .checkHtmlFormat, .detect, .readText,
        .convertMdBytes "hello"] ++
        [.notifyUser false (handlerTag PyExc.pandocError)], Except.ok ()) :=
  c3_execute_never_propagates.2 pandocFailB defConfig _ PyExc.pandocError rfl

/-- Claim C4: whenever the clipboard snapshot is empty (the text read
fails, or the text is empty or all-whitespace), `execute` performs exactly
the emptiness read and one "clipboard empty" failure notification: no app
detection, no parse, no conversion, no insertion, no further events. -/
theorem c4_empty_clipboard_short_circuit (b : Behavior) (c : Config)
    (h : emptyClipboardB b = true) :
    execute b c =
      ([.readText, .notifyUser false .emptyClipboard], Except.ok ()) := by
  unfold emptyClipboardB at h
  rcases hct : b.clipboard_text with u | t
  · simp [execute, executeBody, is_clipboard_empty, get_clipboard_text, hct,
      wfMonad, Bind.bind]
  · rw [hct] at h
    simp only at h
    simp [execute, executeBody, is_clipboard_empty, get_clipboard_text, hct,
      h, wfMonad, Bind.bind]

/-- Witness for C4 at a whitespace-only clipboard. -/
theorem c4_empty_clipboard_short_circuit_witness :
    execute wsClipB defConfig =
      ([.readText, .notifyUser false .emptyClipboard], Except.ok ()) :=
  c4_empty_clipboard_short_circuit wsClipB defConfig rfl

/-- Claim C5: fragment extraction follows the priority order of
`_extract_html_fragment`.  (1) When both `StartFragment` and `EndFragment`
are present and are nonempty digit strings (the code's
`isdigit` integer-parse check), the result is exactly the payload slice at
those offsets.  (2) Otherwise, when the literal comment anchors match, the
result is the text between them.  (3) Otherwise the payload is sliced at
the numeric `StartHTML`/`EndHTML` values, and (4) with both keys absent the
defaults return the entire payload. -/
theorem c5_fragment_extraction_priority (cf : List Char) :
    (∀ sfv efv, metaGet (metaOf cf) "StartFragment".data = some sfv →
        metaGet (metaOf cf) "EndFragment".data = some efv →
        pyIsDigitStr sfv = true → pyIsDigitStr efv = true →
        extract_html_fragment cf =
          .ok (pySliceNat cf (digitsToNat sfv) (digitsToNat efv)))
    ∧ (offsetStrategy cf = none → ∀ i j, anchorSpan cf = some (i, j) →
        extract_html_fragment cf = .ok (pySliceNat cf i j))
    ∧ (offsetStrategy cf = none → anchorSpan cf = none →
        ∀ a ev bv,
          pyInt ((metaGet (metaOf cf) "StartHTML".data).getD ['0']) = some a →
          metaGet (metaOf cf) "EndHTML".data = some ev → pyInt ev = some bv →
          extract_html_fragment cf = .ok (pySliceInt cf a bv))
    ∧ (offsetStrategy cf = none → anchorSpan cf = none →
        metaGet (metaOf cf) "StartHTML".data = none →
        metaGet (metaOf cf) "EndHTML".data = none →
        extract_html_fragment cf = .ok cf) := by
  refine ⟨?_, ?_, ?_, ?_⟩
  · intro sfv efv h1 h2 h3 h4
    simp [extract_html_fragment, offsetStrategy, h1, h2, h3, h4]
  · intro h0 i j h1
    simp [extract_html_fragment, h0, h1]
  · intro h0 h1 a ev bv h2 h3 h4
    simp [extract_html_fragment, h0, h1, h2, h3, h4]
  · intro h0 h1 h2 h3
    simp [extract_html_fragment, h0, h1, h2, h3, pyInt, pyStrip, pyLStrip,
      isPySpace, pyIsDigitStr, isAsciiDigit, digitsToNat, pySliceInt_full]

/-- Witness for C5 case 1: a synthetic payload with explicit digit offsets
extracts exactly the slice at those offsets. -/
theorem c5_fragment_extraction_priority_witness :
    extract_html_fragment cfOffsets.data = Except.ok "Frag".data := by
  have h := (c5_fragment_extraction_priority cfOffsets.data).1
    "5".data "9".data rfl rfl rfl rfl
  rw [h]
  rfl

/-- Claim C6 (robustness violation): the extraction stage is not
exception-free — on a payload whose first two strategies fail and whose
`StartHTML` value is non-numeric, `int()` raises `ValueError` before any
sanitizer could run, for every sanitizer behaviour. -/
theorem c6_extraction_stage_raises_on_bad_starthtml :
    (∀ cleanFn, extractAndClean cleanFn cfBadStartHtml.data =
        Except.error PyExc.valueError)
    ∧ extract_html_fragment cfBadStartHtml.data =
        Except.error PyExc.valueError :=
  ⟨fun _ => rfl, rfl⟩

/-- Counterexample to claim C7 as stated: on `<div></div>` the source
classifier returns `true` (its empty-visible-text early return), while the
claim's four-step procedure — whose step 4 requires two Markdown hints —
returns `false`. -/
theorem c7_counterexample_empty_text_div :
    is_plain_html_fragment "<div></div>".data divTree = true
    ∧ c7SpecProcedure "<div></div>".data divTree = false := by decide

/-- Claim C7 as amended: the classifier implements the claimed decision
procedure with one extra clause — after the semantic-tag and
inline-wrapper checks, an empty stripped visible text also classifies as
plain — plus the claim's two boundary instances (a styled span around
`**bold** text` is plain; any fragment containing a `table` element is
not). -/
theorem c7_amended_decision_procedure :
    (∀ html tree, blank html = true →
        is_plain_html_fragment html tree = true)
    ∧ (∀ html tree, blank html = false → 0 < countSemanticTags tree →
        is_plain_html_fragment html tree = false)
    ∧ (∀ html tree, blank html = false → countSemanticTags tree = 0 →
        onlyInlineWrappers tree = true →
        is_plain_html_fragment html tree = true)
    ∧ (∀ html tree, blank html = false → countSemanticTags tree = 0 →
        onlyInlineWrappers tree = false → (visibleText tree).isEmpty = true →
        is_plain_html_fragment html tree = true)
    ∧ (∀ html tree, blank html = false → countSemanticTags tree = 0 →
        onlyInlineWrappers tree = false →
        (visibleText tree).isEmpty = false →
        (is_plain_html_fragment html tree = true ↔
          2 ≤ markdownHintScore (visibleText tree)))
    ∧ is_plain_html_fragment
        "<span style=\"color:red\">**bold** text</span>".data
        [.elem "span".data [.textNode "**bold** text".data]] = true
    ∧ (∀ html tree, blank html = false →
        "table".data ∈ descendantTags tree →
        is_plain_html_fragment html tree = false) := by
  refine ⟨?_, ?_, ?_, ?_, ?_, by decide, ?_⟩
  · intro html tree h
    simp [is_plain_html_fragment, h]
  · intro html tree h h2
    simp [is_plain_html_fragment, h, h2]
  · intro html tree h h2 h3
    simp [is_plain_html_fragment, h, h2, h3]
  · intro html tree h h2 h3 h4
    simp [is_plain_html_fragment, h, h2, h3, h4]
  · intro html tree h h2 h3 h4
    simp [is_plain_html_fragment, h, h2, h3, h4]
  · intro html tree h hmem
    have hcount : 0 < countSemanticTags tree := by
      have hf : "table".data ∈ (descendantTags tree).filter
          (fun n => memL n SEMANTIC_TAGS) := by
        rw [List.mem_filter]
        exact ⟨hmem, by decide⟩
      unfold countSemanticTags
      exact List.length_pos.mpr (fun hnil => by simp [hnil] at hf)
    simp [is_plain_html_fragment, h, hcount]

/-- Witness for C7 amended: a fragment containing a `table` element is not
plain, and `<br>` alone (no semantic tag, not a wrapper, no visible text)
is plain. -/
theorem c7_amended_decision_procedure_witness :
    is_plain_html_fragment "<table><tr><td>x</td></tr></table>".data
      tableTree = false
    ∧ is_plain_html_fragment "<br>".data brTree = true :=
  ⟨c7_amended_decision_procedure.2.2.2.2.2.2
      "<table><tr><td>x</td></tr></table>".data tableTree rfl (by decide),
   c7_amended_decision_procedure.2.2.2.1 "<br>".data brTree rfl (by decide)
      (by decide) (by decide)⟩

/-- Claim C8: `normalize_markdown` is idempotent — for every input string,
normalizing twice equals normalizing once (proved for all inputs, with no
exclusion for mixed line endings). -/
theorem c8_normalize_markdown_idempotent (s : List Char) :
    normalize_markdown (normalize_markdown s) = normalize_markdown s := by
  have hMne : splitNL (normEOL s) ≠ [] := splitNL_ne_nil _
  have hMnl : ∀ l ∈ splitNL (normEOL s), '\n' ∉ l := splitNL_no_nl _
  have hOne : processGo false false LType.start false (splitNL (normEOL s))
      ≠ [] := processGo_ne_nil _ hMne _ _ _ _
  have hOnl : ∀ l ∈ processGo false false LType.start false
      (splitNL (normEOL s)), '\n' ∉ l := by
    intro l hl
    rcases processGo_mem _ _ _ _ _ l hl with h | h
    · rw [h]; simp
    · exact hMnl l h
  have hOcr : ∀ l ∈ processGo false false LType.start false
      (splitNL (normEOL s)), '\r' ∉ l := by
    intro l hl
    rcases processGo_mem _ _ _ _ _ l hl with h | h
    · rw [h]; simp
    · intro hc
      exact normEOL_no_cr s (splitNL_chars _ l h '\r' hc)
  have hQne : mergeGo 0 (processGo false false LType.start false
      (splitNL (normEOL s))) ≠ [] := mergeGo_ne_nil _ hOne _
  have hQnl : ∀ l ∈ mergeGo 0 (processGo false false LType.start false
      (splitNL (normEOL s))), '\n' ∉ l :=
    fun l hl => hOnl l (mergeGo_mem _ _ l hl)
  have hQcr : ∀ l ∈ mergeGo 0 (processGo false false LType.start false
      (splitNL (normEOL s))), '\r' ∉ l :=
    fun l hl => hOcr l (mergeGo_mem _ _ l hl)
  have hbridge : pyCollapseNL (joinNL (processGo false false LType.start
      false (splitNL (normEOL s)))) = joinNL (mergeGo 0 (processGo false
      false LType.start false (splitNL (normEOL s)))) := by
    unfold pyCollapseNL
    exact bridge _ hOne hOnl 0
  have hzcr : '\r' ∉ joinNL (mergeGo 0 (processGo false false LType.start
      false (splitNL (normEOL s)))) := by
    intro hc
    rcases joinNL_chars _ '\r' hc with h | ⟨l, hl, hcl⟩
    · exact absurd h (by decide)
    · exact hQcr l hl hcl
  have hGoodQ : Good false (mergeGo 0 (processGo false false LType.start
      false (splitNL (normEOL s)))) :=
    good_mergeGo _ false 0 (good_processGo _ false false .start false)
  have hfix : processGo false false LType.start false
      (mergeGo 0 (processGo false false LType.start false
        (splitNL (normEOL s)))) =
      mergeGo 0 (processGo false false LType.start false
        (splitNL (normEOL s))) := by
    apply processGo_fixed _ false false LType.start false hGoodQ
    intro l rest _
    simp
  have hsplit : splitNL (joinNL (mergeGo 0 (processGo false false
      LType.start false (splitNL (normEOL s))))) =
      mergeGo 0 (processGo false false LType.start false
        (splitNL (normEOL s))) := splitNL_joinNL _ hQne hQnl
  have hcore : pyCollapseNL (joinNL (processGo false false LType.start false
      (splitNL (joinNL (mergeGo 0 (processGo false false LType.start false
        (splitNL (normEOL s)))))))) =
      joinNL (mergeGo 0 (processGo false false LType.start false
        (splitNL (normEOL s)))) := by
    rw [hsplit, hfix]
    unfold pyCollapseNL
    rw [bridge _ hQne hQnl 0, mergeGo_idem]
  have hnorm : normalize_markdown s =
      (if hasCRLF s then
        expandCRLF (joinNL (mergeGo 0 (processGo false false LType.start
          false (splitNL (normEOL s)))))
       else joinNL (mergeGo 0 (processGo false false LType.start false
          (splitNL (normEOL s))))) := by
    simp only [normalize_markdown]
    rw [hbridge]
  by_cases hcrlf : hasCRLF s = true
  · rw [hnorm, hcrlf, if_pos rfl]
    by_cases hnlz : '\n' ∈ joinNL (mergeGo 0 (processGo false false
        LType.start false (splitNL (normEOL s))))
    · have h1 : hasCRLF (expandCRLF (joinNL (mergeGo 0 (processGo false
          false LType.start false (splitNL (normEOL s)))))) = true :=
        hasCRLF_expand_of_mem _ hzcr hnlz
      simp only [normalize_markdown]
      rw [normEOL_expand _ hzcr, h1, if_pos rfl, hcore]
    · rw [expandCRLF_no_nl _ hnlz]
      have hyf : hasCRLF (joinNL (mergeGo 0 (processGo false false
          LType.start false (splitNL (normEOL s))))) = false :=
        hasCRLF_of_no_cr _ hzcr
      simp only [normalize_markdown]
      rw [normEOL_no_cr_input _ hzcr, hyf]
      simp only [Bool.false_eq_true, if_false]
      exact hcore
  · have hnf : hasCRLF s = false := by
      revert hcrlf
      cases hasCRLF s <;> simp
    rw [hnorm, hnf]
    simp only [Bool.false_eq_true, if_false]
    have hyf : hasCRLF (joinNL (mergeGo 0 (processGo false false
        LType.start false (splitNL (normEOL s))))) = false :=
      hasCRLF_of_no_cr _ hzcr
    simp only [normalize_markdown]
    rw [normEOL_no_cr_input _ hzcr, hyf]
    simp only [Bool.false_eq_true, if_false]
    exact hcore

/-- Claim C9: with a spreadsheet-family target, Excel handling enabled,
and a non-empty clipboard, a parsed table is handed to the matching
inserter (the `ExcelInsert` decision), and a text that does not parse as a
table is rejected terminally with exactly the "no valid table detected"
failure notification and no further routing. -/
theorem c9_excel_flow_insert_or_reject (b : Behavior) (c : Config)
    (t : Target) (md : String) (hb : Bool)
    (htext : b.clipboard_text = Except.ok md)
    (hnb : isBlankStr md = false)
    (hhtml : b.clipboard_has_html = Except.ok hb)
    (htgt : b.active_app = Except.ok t)
    (ht : t = Target.excel ∨ t = Target.wps_excel)
    (hen : c.enable_excel = true) :
    (∀ g, b.parse_table md = some g →
        (if t = Target.wps_excel then Event.insertWpsExcel g
         else Event.insertExcel g) ∈ (execute b c).1)
    ∧ (b.parse_table md = none →
        execute b c = ([.readText, .checkHtmlFormat, .detect, .readText,
          .parseTableCall md, .notifyUser false .excelNoTable],
          Except.ok ())) := by
  constructor
  · intro g hg
    rcases ht with h | h <;> subst h <;> cases hb <;>
      simp [execute, executeBody, is_clipboard_empty, get_clipboard_text,
        handleExcelFlow, htext, hnb, hhtml, htgt, hen, hg, wfMonad,
        Bind.bind] <;>
      rcases hres : b.wps_excel_insert g c.excel_keep_format with e | v <;>
      rcases hres2 : b.excel_insert g c.excel_keep_format with e2 | v2 <;>
      simp [hres, hres2, execute, pyTry] <;>
      first
        | (cases e <;> simp)
        | (cases e2 <;> simp)
        | (cases v <;> simp)
        | (cases v2 <;> simp)
  · intro hg
    rcases ht with h | h <;> subst h <;> cases hb <;>
      simp [execute, executeBody, is_clipboard_empty, get_clipboard_text,
        handleExcelFlow, htext, hnb, hhtml, htgt, hen, hg, wfMonad,
        Bind.bind]

/-- Witness for C9: both branches at concrete behaviours — a valid table
reaches the Excel inserter, and a non-table is rejected with the single
no-table notification. -/
theorem c9_excel_flow_insert_or_reject_witness :
    Event.insertExcel sampleGrid ∈ (execute excelOkB defConfig).1
    ∧ execute excelNoTableB defConfig =
        ([.readText, .checkHtmlFormat, .detect, .readText,
          .parseTableCall "plain", .notifyUser false .excelNoTable],
          Except.ok ()) := by
  constructor
  · have h := (c9_excel_flow_insert_or_reject excelOkB defConfig
      Target.excel "| a | b |" false rfl rfl rfl rfl (Or.inl rfl) rfl).1
      sampleGrid rfl
    simpa using h
  · exact (c9_excel_flow_insert_or_reject excelNoTableB defConfig
      Target.wps_excel "plain" false rfl rfl rfl rfl (Or.inr rfl) rfl).2 rfl

/-- Claim C10: with a spreadsheet-family target but `enable_excel`
disabled (and auto-open enabled), `execute` skips both the Excel insertion
and the no-table rejection and runs the no-app flow, which — because
`enable_excel` is false — generates and opens a document even though the
clipboard parses as a valid table. -/
theorem c10_excel_disabled_runs_no_app_document_flow (b : Behavior)
    (c : Config) (t : Target) (md : String) (hb : Bool) (g : TableData)
    (p : String)
    (htext : b.clipboard_text = Except.ok md)
    (hnb : isBlankStr md = false)
    (hhtml : b.clipboard_has_html = Except.ok hb)
    (htgt : b.active_app = Except.ok t)
    (ht : t = Target.excel ∨ t = Target.wps_excel)
    (hen : c.enable_excel = false)
    (hauto : c.auto_open_on_no_app = true)
    (hparse : b.parse_table md = some g)
    (hgen : b.gen_output_path = Except.ok p)
    (hpand : b.pandoc_init = Except.ok ())
    (hconv : b.md_to_docx_file (b.latex_convert md) p = Except.ok ())
    (hopen : b.open_document p = Except.ok true) :
    execute b c = ([.readText, .checkHtmlFormat, .detect, .readText,
      .parseTableCall md, .convertMdFile (b.latex_convert md),
      .openDocument p, .notifyUser true .docOpened], Except.ok ()) := by
  rcases ht with h | h <;> subst h <;> cases hb <;>
    simp [execute, executeBody, is_clipboard_empty, get_clipboard_text,
      handleNoAppFlow, generateAndOpenDocument, ensurePandoc,
      htext, hnb, hhtml, htgt, hen, hauto, hparse, hgen, hpand, hconv,
      hopen, wfMonad, Bind.bind]

/-- Witness for C10: Excel focused, table on the clipboard, Excel handling
disabled — a document is generated and opened. -/
theorem c10_excel_disabled_runs_no_app_document_flow_witness :
    execute excelOkB noExcelConfig =
      ([.readText, .checkHtmlFormat, .detect, .readText,
        .parseTableCall "| a | b |", .convertMdFile "| a | b |",
        .openDocument "out.docx", .notifyUser true .docOpened],
        Except.ok ()) :=
  c10_excel_disabled_runs_no_app_document_flow excelOkB noExcelConfig
    Target.excel "| a | b |" false sampleGrid "out.docx"
    rfl rfl rfl rfl (Or.inl rfl) rfl rfl rfl rfl rfl rfl rfl

end PasteMD
